import Mathlib

/-!
Verification of the moq transport core (rust workspace under src/rs) against its
natural-language specification.

The development shallowly embeds the relevant Rust code:
* the byte-level wire codecs from moq-lite/src/coding/encode.rs and decode.rs,
* the control-message bodies from moq-lite/src/lite/announce.rs and subscribe.rs,
* the version-negotiation logic from moq-lite/src/session.rs,
* the priority scheduler from moq-lite/src/lite/priority.rs,
* frame and group reception from moq-lite/src/ietf/subscriber.rs,
* the timescale conversion from moq-lite/src/model/time.rs.

Machine integers are embedded as Nat (u8, u16, u64, usize, u128) or Int (i8),
with explicit wrap-around arithmetic wherever the Rust code performs an
as-cast.  Byte buffers are lists of Nat, each element below 256.  Fallible
decoders return Except DecodeError, mirroring the Rust Result type.

A handful of definitions that the repository does not ship under src/ (the
QUIC varint codec, the Path wire codec, the numeric version constants, the
error-code table and the track group-creation rule) are modelled from the
specification; each such definition carries a doc comment starting with
"Modelled from the spec:".
-/

namespace MoqProof

/-! ## Byte-level codec primitives (moq-lite/src/coding) -/

/-- Decode errors, from the DecodeError enum in coding/decode.rs
(only the variants exercised by the embedded code are modelled). -/
inductive DecodeError where
  | short
  | invalidValue
  deriving Repr, DecidableEq

/-- Wrap an integer into the range of a u8, as the Rust cast `as u8` does. -/
def asU8 (x : Int) : Nat := (x % 256).toNat

/-- Wrap an integer into the range of an i8, as the Rust cast `as i8` does. -/
def asI8 (x : Int) : Int := (x + 128) % 256 - 128

/-- Encoding of u8 from coding/encode.rs: `w.put_u8(*self)`. -/
def encodeU8 (b : Nat) : List Nat := [b]

/-- Decoding of u8 from coding/decode.rs: one byte if the buffer is
non-empty, otherwise `DecodeError::Short`. -/
def decodeU8 : List Nat → Except DecodeError (Nat × List Nat)
  | [] => .error .short
  | b :: r => .ok (b, r)

/-- Encoding of bool from coding/encode.rs: `w.put_u8(*self as u8)`. -/
def encodeBool (b : Bool) : List Nat := [if b then 1 else 0]

/-- Decoding of bool from coding/decode.rs: decode a u8, then 0 is false,
1 is true, and anything else is `DecodeError::InvalidValue`. -/
def decodeBool (buf : List Nat) : Except DecodeError (Bool × List Nat) :=
  match decodeU8 buf with
  | .error e => .error e
  | .ok (b, r) =>
    match b with
    | 0 => .ok (false, r)
    | 1 => .ok (true, r)
    | _ => .error .invalidValue

/-- Encoding of i8 from coding/encode.rs:
`w.put_u8(((*self as i16) + 128) as u8)`. -/
def encodeI8 (v : Int) : List Nat := [asU8 (v + 128)]

/-- Decoding of i8 from coding/decode.rs: `((r.get_u8() as i16) - 128) as i8`,
with `DecodeError::Short` on an empty buffer. -/
def decodeI8 (buf : List Nat) : Except DecodeError (Int × List Nat) :=
  match decodeU8 buf with
  | .error e => .error e
  | .ok (b, r) => .ok (asI8 ((b : Int) - 128), r)

/-- Modelled from the spec: the QUIC-style variable-length integer
(spec section 6, Wire codecs), range 0..2^62, encoded on 1, 2, 4 or 8 bytes
chosen minimally with a 2-bit length marker in the first byte.  The varint
implementation itself is not under src/; only its users are. -/
def varintEncode (n : Nat) : List Nat :=
  if n < 64 then [n]
  else if n < 16384 then [64 + n / 256, n % 256]
  else if n < 1073741824 then
    [128 + n / 16777216, n / 65536 % 256, n / 256 % 256, n % 256]
  else
    [192 + n / 72057594037927936,
     n / 281474976710656 % 256, n / 1099511627776 % 256, n / 4294967296 % 256,
     n / 16777216 % 256, n / 65536 % 256, n / 256 % 256, n % 256]

/-- Modelled from the spec: decoding of the QUIC-style variable-length
integer; the length marker is the two top bits of the first byte, the value
is the big-endian remainder. -/
def varintDecode : List Nat → Except DecodeError (Nat × List Nat)
  | [] => .error .short
  | b :: r =>
    if b < 64 then .ok (b, r)
    else if b < 128 then
      match r with
      | b1 :: r => .ok ((b - 64) * 256 + b1, r)
      | _ => .error .short
    else if b < 192 then
      match r with
      | b1 :: b2 :: b3 :: r =>
        .ok ((b - 128) * 16777216 + b1 * 65536 + b2 * 256 + b3, r)
      | _ => .error .short
    else
      match r with
      | b1 :: b2 :: b3 :: b4 :: b5 :: b6 :: b7 :: r =>
        .ok ((b - 192) * 72057594037927936 + b1 * 281474976710656 +
             b2 * 1099511627776 + b3 * 4294967296 + b4 * 16777216 +
             b5 * 65536 + b6 * 256 + b7, r)
      | _ => .error .short

/-- The varint round-trip: decoding an encoded value below 2^62 recovers the
value and leaves the rest of the buffer untouched. -/
theorem varintDecode_encode (n : Nat) (r : List Nat) (h : n < 4611686018427387904) :
    varintDecode (varintEncode n ++ r) = .ok (n, r) := by
  by_cases h1 : n < 64
  · simp only [varintEncode, if_pos h1, List.cons_append, List.nil_append,
      varintDecode, if_pos h1]
  · by_cases h2 : n < 16384
    · have hb1 : ¬(64 + n / 256 < 64) := by omega
      have hb2 : 64 + n / 256 < 128 := by omega
      simp only [varintEncode, if_neg h1, if_pos h2, List.cons_append, List.nil_append,
        varintDecode, if_neg hb1, if_pos hb2]
      have hn : (64 + n / 256 - 64) * 256 + n % 256 = n := by omega
      rw [hn]
    · by_cases h3 : n < 1073741824
      · have hb1 : ¬(128 + n / 16777216 < 64) := by omega
        have hb2 : ¬(128 + n / 16777216 < 128) := by omega
        have hb3 : 128 + n / 16777216 < 192 := by omega
        simp only [varintEncode, if_neg h1, if_neg h2, if_pos h3, List.cons_append,
          List.nil_append, varintDecode, if_neg hb1, if_neg hb2, if_pos hb3]
        have hn : (128 + n / 16777216 - 128) * 16777216 + n / 65536 % 256 * 65536 +
            n / 256 % 256 * 256 + n % 256 = n := by omega
        rw [hn]
      · have hb1 : ¬(192 + n / 72057594037927936 < 64) := by omega
        have hb2 : ¬(192 + n / 72057594037927936 < 128) := by omega
        have hb3 : ¬(192 + n / 72057594037927936 < 192) := by omega
        simp only [varintEncode, if_neg h1, if_neg h2, if_neg h3, List.cons_append,
          List.nil_append, varintDecode, if_neg hb1, if_neg hb2, if_neg hb3]
        have hn : (192 + n / 72057594037927936 - 192) * 72057594037927936 +
            n / 281474976710656 % 256 * 281474976710656 +
            n / 1099511627776 % 256 * 1099511627776 +
            n / 4294967296 % 256 * 4294967296 +
            n / 16777216 % 256 * 16777216 +
            n / 65536 % 256 * 65536 + n / 256 % 256 * 256 + n % 256 = n := by omega
        rw [hn]

/-- Encoding of Vec<u8> and String from coding/encode.rs: varint length
followed by the raw bytes (the varint itself is modelled from the spec). -/
def encodeBytes (s : List Nat) : List Nat := varintEncode s.length ++ s

/-- Decoding of Vec<u8> and String from coding/decode.rs: varint length, a
Short error when fewer bytes remain, otherwise that many raw bytes. -/
def decodeBytes (buf : List Nat) : Except DecodeError (List Nat × List Nat) :=
  match varintDecode buf with
  | .error e => .error e
  | .ok (len, r) =>
    if r.length < len then .error .short else .ok (r.take len, r.drop len)

/-- The byte-string round-trip, for payloads shorter than 2^62. -/
theorem decodeBytes_encode (s r : List Nat) (h : s.length < 4611686018427387904) :
    decodeBytes (encodeBytes s ++ r) = .ok (s, r) := by
  simp only [encodeBytes, List.append_assoc, decodeBytes,
    varintDecode_encode s.length (s ++ r) h]
  have hlen : ¬((s ++ r).length < s.length) := by
    simp only [List.length_append]
    omega
  simp only [if_neg hlen, List.take_left, List.drop_left]

/-! ## C7 and C9: the i8 and bool wire codecs -/

/-- C7: the signed priority codec encodes every v in -128..=127 as the single
byte v+128 (0 serializes to 0x80 = 128), decoding any byte b yields b-128,
and decode is a left inverse of encode on the whole semantic range. -/
theorem c7_i8_codec (v : Int) (b : Nat) (r : List Nat)
    (hv : -128 ≤ v ∧ v ≤ 127) (hb : b < 256) :
    encodeI8 v = [(v + 128).toNat] ∧
    encodeI8 0 = [128] ∧
    decodeI8 (b :: r) = .ok ((b : Int) - 128, r) ∧
    decodeI8 (encodeI8 v ++ r) = .ok (v, r) := by
  obtain ⟨hv1, hv2⟩ := hv
  refine ⟨?_, ?_, ?_, ?_⟩
  · simp only [encodeI8, asU8, List.cons.injEq, and_true]
    omega
  · rfl
  · simp only [decodeI8, decodeU8, asI8, Except.ok.injEq, Prod.mk.injEq, and_true]
    omega
  · have h : asI8 ((asU8 (v + 128) : Int) - 128) = v := by
      simp only [asU8, asI8]
      omega
    simp only [encodeI8, List.cons_append, List.nil_append, decodeI8, decodeU8, h]

/-- Witness for C7 at v = 0 and b = 0x80. -/
theorem c7_i8_codec_witness :
    encodeI8 0 = [(0 + 128 : Int).toNat] ∧
    encodeI8 0 = [128] ∧
    decodeI8 (128 :: []) = .ok (((128 : Nat) : Int) - 128, []) ∧
    decodeI8 (encodeI8 0 ++ []) = .ok (0, []) :=
  c7_i8_codec 0 128 [] (by decide) (by decide)

/-- C9: bool encodes false as byte 0 and true as byte 1; decoding succeeds
exactly on the bytes 0 and 1 and rejects every other byte value with the
invalid-value protocol error. -/
theorem c9_bool_codec (b : Nat) (r : List Nat) (hb : b < 256) :
    encodeBool false = [0] ∧
    encodeBool true = [1] ∧
    decodeBool (0 :: r) = .ok (false, r) ∧
    decodeBool (1 :: r) = .ok (true, r) ∧
    (2 ≤ b → decodeBool (b :: r) = .error .invalidValue) ∧
    (∀ x : Bool, decodeBool (encodeBool x ++ r) = .ok (x, r)) := by
  refine ⟨rfl, rfl, rfl, rfl, ?_, ?_⟩
  · intro h2
    match b, h2 with
    | n + 2, _ => rfl
  · intro x
    cases x <;> rfl

/-- Witness for C9 at b = 7. -/
theorem c9_bool_codec_witness :
    encodeBool false = [0] ∧
    encodeBool true = [1] ∧
    decodeBool (0 :: []) = .ok (false, []) ∧
    decodeBool (1 :: []) = .ok (true, []) ∧
    (2 ≤ 7 → decodeBool (7 :: []) = .error .invalidValue) ∧
    (∀ x : Bool, decodeBool (encodeBool x ++ []) = .ok (x, [])) :=
  c9_bool_codec 7 [] (by decide)

/-! ## Control messages of the lite dialect (moq-lite/src/lite) -/

/-- The two wire versions of the lite dialect, from lite/subscribe.rs
(the version enum itself is not under src/, but both variants appear there). -/
inductive LiteVersion where
  | draft01
  | draft02
  deriving Repr, DecidableEq

/-- Modelled from the spec: the Path wire codec.  The path type (path.rs) is
not under src/; the spec describes paths as slash-separated strings and the
wire form as a varint-length-prefixed byte string, like String.  Text is kept
as raw bytes; UTF-8 validation is an external collaborator. -/
def encodePath (p : List Nat) : List Nat := encodeBytes p

/-- Modelled from the spec: decoding of the Path wire codec. -/
def decodePath (buf : List Nat) : Except DecodeError (List Nat × List Nat) :=
  decodeBytes buf

/-- The control-message bodies from lite/announce.rs and lite/subscribe.rs.
Strings and paths are byte lists; integers are Nat. -/
inductive ControlMessage where
  | announceActive (suffix : List Nat)
  | announceEnded (suffix : List Nat)
  | announcePlease (pre : List Nat)
  | announceInit (suffixes : List (List Nat))
  | subscribe (id : Nat) (broadcast : List Nat) (track : List Nat) (priority : Nat)
  | subscribeOk (priority : Nat)
  deriving Repr, DecidableEq

/-- The message kind, standing for the message id that the control stream
framing (not under src/) uses to pick the decoder. -/
inductive MsgKind where
  | announce
  | announcePlease
  | announceInit
  | subscribe
  | subscribeOk
  deriving Repr, DecidableEq

/-- The kind of each message value. -/
def kindOf : ControlMessage → MsgKind
  | .announceActive _ => .announce
  | .announceEnded _ => .announce
  | .announcePlease _ => .announcePlease
  | .announceInit _ => .announceInit
  | .subscribe _ _ _ _ => .subscribe
  | .subscribeOk _ => .subscribeOk

/-- encode_msg of each message body, translated from lite/announce.rs and
lite/subscribe.rs.  Announce writes the status byte (Ended = 0, Active = 1)
then the suffix; AnnounceInit writes the suffix count as u64 then each
suffix; Subscribe writes id (varint), broadcast, track and the priority
byte; SubscribeOk writes the priority byte only under Draft01. -/
def encodeMsg (v : LiteVersion) : ControlMessage → List Nat
  | .announceActive s => 1 :: encodePath s
  | .announceEnded s => 0 :: encodePath s
  | .announcePlease p => encodePath p
  | .announceInit ss => varintEncode ss.length ++ (ss.map encodePath).flatten
  | .subscribe id b t p => varintEncode id ++ encodePath b ++ encodeBytes t ++ [p]
  | .subscribeOk p =>
    match v with
    | .draft01 => [p]
    | .draft02 => []

/-- Helper for AnnounceInit: decode a fixed number of paths. -/
def decodePaths : Nat → List Nat → Except DecodeError (List (List Nat) × List Nat)
  | 0, buf => .ok ([], buf)
  | n + 1, buf =>
    match decodePath buf with
    | .error e => .error e
    | .ok (p, r) =>
      match decodePaths n r with
      | .error e => .error e
      | .ok (ps, r2) => .ok (p :: ps, r2)

/-- decode_msg of each message body, translated from lite/announce.rs and
lite/subscribe.rs.  Announce reads the status byte via TryFromPrimitive
(values other than 0 and 1 are InvalidValue); SubscribeOk reads the priority
byte only under Draft01 and otherwise yields the default 0. -/
def decodeMsg (v : LiteVersion) : MsgKind → List Nat → Except DecodeError (ControlMessage × List Nat)
  | .announce, buf =>
    match decodeU8 buf with
    | .error e => .error e
    | .ok (status, r) =>
      match status with
      | 0 =>
        match decodePath r with
        | .error e => .error e
        | .ok (s, r2) => .ok (.announceEnded s, r2)
      | 1 =>
        match decodePath r with
        | .error e => .error e
        | .ok (s, r2) => .ok (.announceActive s, r2)
      | _ => .error .invalidValue
  | .announcePlease, buf =>
    match decodePath buf with
    | .error e => .error e
    | .ok (p, r) => .ok (.announcePlease p, r)
  | .announceInit, buf =>
    match varintDecode buf with
    | .error e => .error e
    | .ok (count, r) =>
      match decodePaths count r with
      | .error e => .error e
      | .ok (ps, r2) => .ok (.announceInit ps, r2)
  | .subscribe, buf =>
    match varintDecode buf with
    | .error e => .error e
    | .ok (id, r) =>
      match decodePath r with
      | .error e => .error e
      | .ok (b, r2) =>
        match decodeBytes r2 with
        | .error e => .error e
        | .ok (t, r3) =>
          match decodeU8 r3 with
          | .error e => .error e
          | .ok (p, r4) => .ok (.subscribe id b t p, r4)
  | .subscribeOk, buf =>
    match v with
    | .draft01 =>
      match decodeU8 buf with
      | .error e => .error e
      | .ok (p, r) => .ok (.subscribeOk p, r)
    | .draft02 => .ok (.subscribeOk 0, buf)

/-- Well-formedness of a message value: every length and varint-encoded
integer fits the 2^62 varint range and every byte field fits a byte. -/
def wfMsg : ControlMessage → Prop
  | .announceActive s => s.length < 4611686018427387904
  | .announceEnded s => s.length < 4611686018427387904
  | .announcePlease p => p.length < 4611686018427387904
  | .announceInit ss =>
    ss.length < 4611686018427387904 ∧ ∀ s ∈ ss, s.length < 4611686018427387904
  | .subscribe id b t p =>
    id < 4611686018427387904 ∧ b.length < 4611686018427387904 ∧
      t.length < 4611686018427387904 ∧ p < 256
  | .subscribeOk p => p < 256

/-- Round-trip for a list of encoded paths. -/
theorem decodePaths_encode (ss : List (List Nat)) (r : List Nat)
    (h : ∀ s ∈ ss, s.length < 4611686018427387904) :
    decodePaths ss.length ((ss.map encodePath).flatten ++ r) = .ok (ss, r) := by
  induction ss generalizing r with
  | nil => rfl
  | cons s ss ih =>
    have hs : s.length < 4611686018427387904 := h s (List.mem_cons_self s ss)
    have hss : ∀ x ∈ ss, x.length < 4611686018427387904 :=
      fun x hx => h x (List.mem_cons_of_mem s hx)
    simp only [List.length_cons, List.map_cons, List.flatten_cons, List.append_assoc,
      decodePaths, decodePath, encodePath, decodeBytes_encode s _ hs, ih _ hss]

/-! ## C4: control-message round-trip -/

/-- C4 counterexample: the claim fails as stated.  Under Draft02 the
SubscribeOk body does not carry the priority field (lite/subscribe.rs lines
49-63), so encoding SubscribeOk with priority 5 and decoding it back under
Draft02 yields priority 0, not the original value. -/
theorem c4_roundtrip_counterexample :
    decodeMsg .draft02 (kindOf (.subscribeOk 5))
        (encodeMsg .draft02 (.subscribeOk 5) ++ []) =
      .ok (.subscribeOk 0, []) ∧
    ControlMessage.subscribeOk 0 ≠ ControlMessage.subscribeOk 5 := by
  exact ⟨rfl, by decide⟩

/-- C4 amended: for every well-formed control message value and every
negotiated lite version, encode-then-decode under the same version yields the
original value, except SubscribeOk under Draft02, whose priority field is not
carried on the wire and decodes as 0. -/
theorem c4_message_roundtrip (v : LiteVersion) (m : ControlMessage) (r : List Nat)
    (hm : wfMsg m)
    (hexc : ∀ p, m = .subscribeOk p → v = .draft02 → p = 0) :
    decodeMsg v (kindOf m) (encodeMsg v m ++ r) = .ok (m, r) := by
  cases m with
  | announceActive s =>
    simp only [wfMsg] at hm
    simp only [kindOf, encodeMsg, encodePath, List.cons_append, decodeMsg, decodeU8,
      decodePath, decodeBytes_encode s r hm]
  | announceEnded s =>
    simp only [wfMsg] at hm
    simp only [kindOf, encodeMsg, encodePath, List.cons_append, decodeMsg, decodeU8,
      decodePath, decodeBytes_encode s r hm]
  | announcePlease p =>
    simp only [wfMsg] at hm
    simp only [kindOf, encodeMsg, encodePath, decodeMsg, decodePath,
      decodeBytes_encode p r hm]
  | announceInit ss =>
    obtain ⟨h1, h2⟩ := hm
    simp only [kindOf, encodeMsg, List.append_assoc, decodeMsg,
      varintDecode_encode ss.length _ h1, decodePaths_encode ss r h2]
  | subscribe id b t p =>
    obtain ⟨h1, h2, h3, _⟩ := hm
    simp only [kindOf, encodeMsg, encodePath, List.append_assoc, List.singleton_append,
      decodeMsg, varintDecode_encode id _ h1, decodePath, decodeBytes_encode b _ h2,
      decodeBytes_encode t _ h3, decodeU8]
  | subscribeOk p =>
    cases v with
    | draft01 =>
      simp only [kindOf, encodeMsg, List.singleton_append, decodeMsg, decodeU8]
    | draft02 =>
      have hp : p = 0 := hexc p rfl rfl
      subst hp
      simp only [kindOf, encodeMsg, List.nil_append, decodeMsg]

/-- Witness for C4 amended at a concrete Subscribe message under Draft02. -/
theorem c4_message_roundtrip_witness :
    decodeMsg .draft02 (kindOf (.subscribe 1 [65] [118] 4))
        (encodeMsg .draft02 (.subscribe 1 [65] [118] 4) ++ [9]) =
      .ok (.subscribe 1 [65] [118] 4, [9]) :=
  c4_message_roundtrip .draft02 (.subscribe 1 [65] [118] 4) [9]
    (by simp only [wfMsg, List.length_cons, List.length_nil]; omega)
    (fun p h => nomatch h)

/-! ## Errors and version negotiation (moq-lite/src/session.rs) -/

/-- The session error variants used by the embedded code.  The Error enum
lives in error.rs, which is not under src/; the variant names are those used
by session.rs and ietf/subscriber.rs (Version, WrongSize, Old, Cancel,
NotFound, Duplicate).  Payloads are dropped. -/
inductive MoqError where
  | version
  | wrongSize
  | old
  | cancel
  | notFound
  | duplicate
  deriving Repr, DecidableEq

/-- Modelled from the spec: the numeric session close codes from the control
error table in spec section 6 (to_code lives in error.rs, not under src/).
Old is the stale-group error, code 7; WrongSize falls under Protocol, code 4
(malformed message, unexpected stream, wrong size). -/
def MoqError.toCode : MoqError → Nat
  | .version => 5
  | .wrongSize => 4
  | .old => 7
  | .cancel => 1
  | .notFound => 2
  | .duplicate => 6

/-- A wire version number, a u64 (coding/version.rs). -/
structure Version where
  val : Nat
  deriving Repr, DecidableEq

/-- Modelled from the spec: a concrete u64 value for the lite draft-1
version.  The numeric constants live in lite/version.rs and the ietf module,
which are not under src/; the proofs rely only on the three constants being
distinct and on the draft-2 lite constant being numerically above the
draft-1 lite constant. -/
def vLite1 : Version := ⟨1⟩

/-- Modelled from the spec: a concrete u64 value for the lite draft-2
version (see vLite1). -/
def vLite2 : Version := ⟨2⟩

/-- Modelled from the spec: a concrete u64 value for the ietf draft-14
version (see vLite1). -/
def vIetf14 : Version := ⟨14⟩

/-- The VERSIONS constant from session.rs lines 21-25: the supported
versions in preference order, the lite drafts first. -/
def VERSIONS : List Version := [vLite2, vLite1, vIetf14]

/-- The version choice made by the server in Session::accept_with_stats
(session.rs lines 132-138): the first version of the client-offered list
that the supported list contains, otherwise Error::Version.  The source
fixes supported to the VERSIONS constant; it is a parameter here so that
the spec scenario of a server supporting a single version is expressible. -/
def negotiateWith (supported client : List Version) : Except MoqError Version :=
  match client.find? (fun v => decide (v ∈ supported)) with
  | some v => .ok v
  | none => .error .version

/-- The version choice of this implementation, with the supported set fixed
to the VERSIONS constant as in session.rs. -/
def negotiate (client : List Version) : Except MoqError Version :=
  negotiateWith VERSIONS client

/-! ## C1 and C8: version negotiation -/

/-- C1 counterexample: the negotiated version is not in general the highest
version both sides support.  With the client offering the lite draft-1
version before the lite draft-2 version and the server (this code) supporting
both, the handshake picks draft-1 even though draft-2 is a mutually supported
version with a higher number: the code takes the first client-offered
supported version, not the highest. -/
theorem c1_highest_version_counterexample :
    negotiate [vLite1, vLite2] = .ok vLite1 ∧
    vLite2 ∈ [vLite1, vLite2] ∧ vLite2 ∈ VERSIONS ∧ vLite1.val < vLite2.val := by
  refine ⟨rfl, by decide, by decide, by decide⟩

/-- C1 amended: whenever the client-offered list and the supported list
intersect, the handshake succeeds and the negotiated version is the first
version in the client-preference order that the server also supports; in
particular a server supporting only the lite draft-1 version picks it from
the offer of draft-2, draft-1 and ietf-14. -/
theorem c1_negotiated_first_mutual (supported client : List Version)
    (h : ∃ v ∈ client, v ∈ supported) :
    (∃ chosen pre post,
      negotiateWith supported client = .ok chosen ∧
      client = pre ++ chosen :: post ∧
      chosen ∈ supported ∧
      ∀ x ∈ pre, x ∉ supported) ∧
    negotiateWith [vLite1] [vLite2, vLite1, vIetf14] = .ok vLite1 := by
  refine ⟨?_, by rfl⟩
  induction client with
  | nil =>
    obtain ⟨v, hv, _⟩ := h
    cases hv
  | cons c cs ih =>
    by_cases hc : c ∈ supported
    · refine ⟨c, [], cs, ?_, rfl, hc, by simp⟩
      simp only [negotiateWith, List.find?_cons, decide_eq_true hc]
    · have h2 : ∃ v ∈ cs, v ∈ supported := by
        obtain ⟨v, hv, hvs⟩ := h
        rcases List.mem_cons.mp hv with rfl | hv2
        · exact absurd hvs hc
        · exact ⟨v, hv2, hvs⟩
      obtain ⟨chosen, pre, post, heq, hsplit, hmem, hpre⟩ := ih h2
      refine ⟨chosen, c :: pre, post, ?_, by rw [hsplit]; rfl, hmem, ?_⟩
      · simpa only [negotiateWith, List.find?_cons, decide_eq_false hc] using heq
      · intro x hx
        rcases List.mem_cons.mp hx with rfl | hx2
        · exact hc
        · exact hpre x hx2

/-- Witness for C1 amended at the spec scenario. -/
theorem c1_negotiated_first_mutual_witness :
    ((∃ chosen pre post,
      negotiateWith [vLite1] [vLite2, vLite1, vIetf14] = .ok chosen ∧
      [vLite2, vLite1, vIetf14] = pre ++ chosen :: post ∧
      chosen ∈ [vLite1] ∧
      ∀ x ∈ pre, x ∉ [vLite1]) ∧
    negotiateWith [vLite1] [vLite2, vLite1, vIetf14] = .ok vLite1) :=
  c1_negotiated_first_mutual [vLite1] [vLite2, vLite1, vIetf14]
    ⟨vLite1, by decide, by decide⟩

/-- C8: when the client-offered versions and the supported versions have an
empty intersection, the handshake fails with the Version error (it neither
succeeds nor picks an unsupported version), and the corresponding session
close code is 5, the protocol-level Version code of the spec error table. -/
theorem c8_no_overlap_version_error (client : List Version)
    (h : ∀ v ∈ client, v ∉ VERSIONS) :
    negotiate client = .error .version ∧ MoqError.toCode .version = 5 := by
  refine ⟨?_, rfl⟩
  have hfind : client.find? (fun v => decide (v ∈ VERSIONS)) = none := by
    apply List.find?_eq_none.mpr
    intro v hv
    simpa using h v hv
  simp only [negotiate, negotiateWith, hfind]

/-- Witness for C8 with a client offering a single unknown version. -/
theorem c8_no_overlap_version_error_witness :
    negotiate [⟨999⟩] = .error .version ∧ MoqError.toCode .version = 5 :=
  c8_no_overlap_version_error [⟨999⟩] (by decide)

/-! ## Priority scheduler (moq-lite/src/lite/priority.rs)

The hybrid queue keeps the top 255 items in a sorted vec (index 0 = highest
priority) and the rest in a BinaryHeap; each id has an entry recording its
location and the current value of its rank watch channel.  Operations also
return the list of (id, new rank) notifications emitted through
send_if_modified. -/

/-- A scheduled item: id is the insertion counter, track the track priority
(u8) and group the group sequence (u64), from priority.rs lines 19-24. -/
structure PriorityItem where
  id : Nat
  track : Nat
  group : Nat
  deriving Repr, DecidableEq

/-- The strict order of impl Ord for PriorityItem (priority.rs lines 40-46):
the comparison is reversed so that the higher track priority, then the higher
group sequence, sorts first; a is less than b exactly when a has the higher
priority.  Eq and Ord compare only track and group, never id. -/
def itemLt (a b : PriorityItem) : Bool :=
  b.track < a.track || (b.track == a.track && b.group < a.group)

/-- The Location enum from priority.rs lines 63-66. -/
inductive ItemLocation where
  | inVec (idx : Nat)
  | inOverflow
  deriving Repr, DecidableEq

/-- One row of the indexes map: the location and the current value of the
rank watch channel. -/
structure IndexEntry where
  loc : ItemLocation
  value : Nat
  deriving Repr, DecidableEq

/-- The PriorityState struct from priority.rs lines 68-77: the sorted vec,
the overflow heap contents, the id-indexed map and the id counter. -/
structure PriorityState where
  vec : List PriorityItem
  overflow : List PriorityItem
  indexes : List (Nat × IndexEntry)
  nextId : Nat
  deriving Repr, DecidableEq

/-- The empty queue (PriorityState::default). -/
def emptyPriorityState : PriorityState := ⟨[], [], [], 0⟩

/-- Look up the entry of an id in the indexes map. -/
def lookupEntry (xs : List (Nat × IndexEntry)) (id : Nat) : Option IndexEntry :=
  (xs.find? (fun p => p.1 == id)).map (·.2)

/-- HashMap::insert on the indexes map (replaces any existing binding). -/
def insertEntry (id : Nat) (e : IndexEntry) (xs : List (Nat × IndexEntry)) :
    List (Nat × IndexEntry) :=
  (id, e) :: xs.filter (fun p => p.1 != id)

/-- HashMap::remove on the indexes map. -/
def removeEntry (id : Nat) (xs : List (Nat × IndexEntry)) : List (Nat × IndexEntry) :=
  xs.filter (fun p => p.1 != id)

/-- update_location from priority.rs lines 140-157: set the location of an
id, compute the new rank (the vec index clamped to 255, or 255 for
overflow), store it in the watch channel and emit a notification when the
value changed.  The source panics when the id is absent; that case returns
the map unchanged and is never reached below. -/
def updateLocation (id : Nat) (loc : ItemLocation) (xs : List (Nat × IndexEntry)) :
    List (Nat × IndexEntry) × List (Nat × Nat) :=
  match lookupEntry xs id with
  | none => (xs, [])
  | some e =>
    let newValue :=
      match loc with
      | .inVec idx => min idx 255
      | .inOverflow => 255
    (xs.map (fun p => if p.1 = id then (id, ⟨loc, newValue⟩) else p),
     if e.value = newValue then [] else [(id, newValue)])

/-- update_indices_from of priority.rs lines 134-138: refresh the location
of every vec item from the given index onward. -/
def updateIndicesFrom (start : Nat) (vec : List PriorityItem)
    (xs : List (Nat × IndexEntry)) : List (Nat × IndexEntry) × List (Nat × Nat) :=
  (vec.enum.drop start).foldl
    (fun acc p =>
      let (m2, ns2) := updateLocation p.2.id (.inVec p.1) acc.1
      (m2, acc.2 ++ ns2))
    (xs, [])

/-- MAX_VEC_SIZE from priority.rs line 61. -/
def MAX_VEC_SIZE : Nat := 255

/-- PriorityState::insert from priority.rs lines 80-132.  The binary-search
insertion point is the number of strictly smaller elements, which matches
Vec::binary_search for the Err case and its leftmost Ok answer; the
scheduler is only evaluated here on items with pairwise distinct keys, where
the two coincide.  Returns the new state, the fresh id and the emitted
notifications. -/
def insertItem (track group : Nat) (s : PriorityState) :
    PriorityState × Nat × List (Nat × Nat) :=
  let id := s.nextId
  let item : PriorityItem := ⟨id, track, group⟩
  if s.vec.length < MAX_VEC_SIZE then
    let pos := s.vec.countP (fun e => itemLt e item)
    let vec2 := s.vec.insertIdx pos item
    let idx2 := insertEntry id ⟨.inVec pos, min pos 255⟩ s.indexes
    let (idx3, ns) := updateIndicesFrom (pos + 1) vec2 idx2
    (⟨vec2, s.overflow, idx3, id + 1⟩, id, ns)
  else
    let lowest := s.vec.getLastD ⟨0, 0, 0⟩
    if itemLt lowest item then
      (⟨s.vec, item :: s.overflow, insertEntry id ⟨.inOverflow, 255⟩ s.indexes, id + 1⟩,
       id, [])
    else
      let vec1 := s.vec.dropLast
      let (idxA, nsA) := updateLocation lowest.id .inOverflow s.indexes
      let pos := vec1.countP (fun e => itemLt e item)
      let vec2 := vec1.insertIdx pos item
      let idxB := insertEntry id ⟨.inVec pos, min pos 255⟩ idxA
      let (idxC, nsC) := updateIndicesFrom (pos + 1) vec2 idxB
      (⟨vec2, lowest :: s.overflow, idxC, id + 1⟩, id, nsA ++ nsC)

/-- Scan for a maximal element of the heap contents under the item order
(the first one on ties, which the evaluated inputs never have), mirroring
BinaryHeap::pop returning the Ord-greatest element. -/
def popMaxGo (best : PriorityItem) (acc : List PriorityItem) :
    List PriorityItem → PriorityItem × List PriorityItem
  | [] => (best, acc.reverse)
  | x :: xs =>
    if itemLt best x then popMaxGo x (best :: acc) xs else popMaxGo best (x :: acc) xs

/-- BinaryHeap::pop on the overflow contents. -/
def heapPop : List PriorityItem → Option (PriorityItem × List PriorityItem)
  | [] => none
  | x :: xs => some (popMaxGo x [] xs)

/-- PriorityState::remove from priority.rs lines 159-183: drop the id from
the map; when it was in the vec, erase it there, promote the popped overflow
item (pushed at the back of the vec) and refresh the indices from the
removal point; when it was in overflow, rebuild the heap without it.  The
source panics when the id is absent; that case returns the state unchanged
and is never reached below. -/
def removeItem (id : Nat) (s : PriorityState) : PriorityState × List (Nat × Nat) :=
  match lookupEntry s.indexes id with
  | none => (s, [])
  | some e =>
    let idx0 := removeEntry id s.indexes
    match e.loc with
    | .inVec pos =>
      let vec1 := s.vec.eraseIdx pos
      match heapPop s.overflow with
      | some (promoted, rest) =>
        let vec2 := vec1 ++ [promoted]
        let (idxA, nsA) := updateLocation promoted.id (.inVec (vec2.length - 1)) idx0
        let (idxB, nsB) := updateIndicesFrom pos vec2 idxA
        (⟨vec2, rest, idxB, s.nextId⟩, nsA ++ nsB)
      | none =>
        let (idxB, nsB) := updateIndicesFrom pos vec1 idx0
        (⟨vec1, s.overflow, idxB, s.nextId⟩, nsB)
    | .inOverflow =>
      (⟨s.vec, s.overflow.filter (fun it => it.id != id), idx0, s.nextId⟩, [])

/-- The rank currently reported by the watch channel of an id
(PriorityHandle::current). -/
def reportedRank (s : PriorityState) (id : Nat) : Option Nat :=
  (lookupEntry s.indexes id).map (·.value)

/-- An operation on the queue: an insert or a removal (handle drop). -/
inductive PriorityOp where
  | ins (track group : Nat)
  | del (id : Nat)
  deriving Repr, DecidableEq

/-- Apply one operation to a state, appending the emitted notifications. -/
def stepOp (acc : PriorityState × List (Nat × Nat)) (op : PriorityOp) :
    PriorityState × List (Nat × Nat) :=
  match op with
  | .ins t g =>
    let r := insertItem t g acc.1
    (r.1, acc.2 ++ r.2.2)
  | .del id =>
    let r := removeItem id acc.1
    (r.1, acc.2 ++ r.2)

/-- Run a sequence of operations from the empty queue, accumulating all
notifications. -/
def runOps (ops : List PriorityOp) : PriorityState × List (Nat × Nat) :=
  ops.foldl stepOp (emptyPriorityState, [])

/-! ### The overflow scenarios for C2 and C3

The queue is filled with 255 items of track priority 100 and descending
group sequences (each insert lands at the end of the sorted vec), then two
lower-priority items are inserted, which go to the overflow heap: first
track 50, then track 80.  Removing a top-set item must, per the spec and the
comments in priority.rs, promote the highest-priority overflow item
(track 80); the code promotes the track-50 one.  A second removal then
promotes the track-80 item behind it, leaving the vec unsorted and the
reported ranks out of order.  The 255 fill inserts are evaluated once and
for all by induction through stepOp_fill; the four remaining operations are
evaluated on explicit states. -/

/-- The fill inserts: track-100 items with groups 255-a down to 256-b. -/
def fillRange (a b : Nat) : List PriorityOp :=
  (List.range (b - a)).map (fun j => .ins 100 (255 - (a + j)))

/-- The queue state after the first k fill inserts: k items sorted by
descending group, each id at its own index, nothing in overflow. -/
def sFillK (k : Nat) : PriorityState :=
  ⟨(List.range k).map (fun i => ⟨i, 100, 255 - i⟩), [],
   (List.range k).reverse.map (fun i => (i, ⟨.inVec i, i⟩)), k⟩

/-- One fill insert: with k items of descending group in the vec and room
left, inserting a track-100 item with the next smaller group appends it at
index k and emits no notification. -/
theorem stepOp_fill (k : Nat) (hk : k < 255) (ns : List (Nat × Nat)) :
    stepOp (sFillK k, ns) (.ins 100 (255 - k)) = (sFillK (k + 1), ns) := by
  have hlen : ((List.range k).map (fun i => (⟨i, 100, 255 - i⟩ : PriorityItem))).length = k := by
    simp
  have hcount : ((List.range k).map (fun i => (⟨i, 100, 255 - i⟩ : PriorityItem))).countP
      (fun e => itemLt e ⟨k, 100, 255 - k⟩) = k := by
    rw [List.countP_eq_length.mpr, hlen]
    intro a ha
    obtain ⟨i, hi, rfl⟩ := List.mem_map.mp ha
    have hik : i < k := List.mem_range.mp hi
    simp only [itemLt]
    have h1 : ¬(100 < 100) := by omega
    have h2 : 255 - k < 255 - i := by omega
    simp [h1, h2]
  have hfilter : ((List.range k).reverse.map
        (fun i => (i, (⟨.inVec i, i⟩ : IndexEntry)))).filter (fun p => p.1 != k) =
      (List.range k).reverse.map (fun i => (i, ⟨.inVec i, i⟩)) := by
    apply List.filter_eq_self.mpr
    intro a ha
    obtain ⟨i, hi, rfl⟩ := List.mem_map.mp ha
    have : i < k := List.mem_range.mp (List.mem_reverse.mp hi)
    simp only [bne_iff_ne, ne_eq]
    omega
  have hins := List.insertIdx_length_self
    ((List.range k).map (fun i => (⟨i, 100, 255 - i⟩ : PriorityItem)))
    (⟨k, 100, 255 - k⟩ : PriorityItem)
  rw [hlen] at hins
  have hmin : min k 255 = k := by omega
  have hvec : ((List.range k).map (fun i => (⟨i, 100, 255 - i⟩ : PriorityItem))) ++
      [⟨k, 100, 255 - k⟩] = (List.range (k + 1)).map (fun i => ⟨i, 100, 255 - i⟩) := by
    rw [List.range_succ, List.map_append]
    rfl
  have hidx : (k, (⟨.inVec k, k⟩ : IndexEntry)) ::
      (List.range k).reverse.map (fun i => (i, (⟨.inVec i, i⟩ : IndexEntry))) =
      (List.range (k + 1)).reverse.map (fun i => (i, ⟨.inVec i, i⟩)) := by
    rw [List.range_succ, List.reverse_append]
    rfl
  have hupd : ∀ xs : List (Nat × IndexEntry),
      updateIndicesFrom (k + 1)
        ((List.range (k + 1)).map (fun i => (⟨i, 100, 255 - i⟩ : PriorityItem))) xs = (xs, []) := by
    intro xs
    unfold updateIndicesFrom
    rw [List.drop_eq_nil_of_le (by simp)]
    rfl
  simp only [stepOp, insertItem, sFillK, MAX_VEC_SIZE, hlen, hcount]
  rw [if_pos hk]
  simp only [hins, hmin, insertEntry, hfilter, hvec, hidx, hupd, List.append_nil]

/-- Evaluation of the whole fill, by induction on its length. -/
theorem fillEval (k : Nat) (hk : k ≤ 255) :
    (fillRange 0 k).foldl stepOp (emptyPriorityState, []) = (sFillK k, []) := by
  induction k with
  | zero => rfl
  | succ n ih =>
    have hn : n ≤ 255 := Nat.le_of_succ_le hk
    have hsplit : fillRange 0 (n + 1) = fillRange 0 n ++ [.ins 100 (255 - n)] := by
      unfold fillRange
      simp [List.range_succ]
    rw [hsplit, List.foldl_append, ih hn, List.foldl_cons, List.foldl_nil]
    exact stepOp_fill n (by omega) []

/-- The state after the 256th insert (track 50): the full vec is unchanged
and the new item sits in overflow reporting 255. -/
def sIns50 : PriorityState :=
  ⟨(sFillK 255).vec, [⟨255, 50, 0⟩],
   (255, ⟨.inOverflow, 255⟩) :: (sFillK 255).indexes, 256⟩

/-- The state after the 257th insert (track 80): both extra items sit in
overflow reporting 255. -/
def sOverflow2 : PriorityState :=
  ⟨(sFillK 255).vec, [⟨256, 80, 0⟩, ⟨255, 50, 0⟩],
   (256, ⟨.inOverflow, 255⟩) :: (255, ⟨.inOverflow, 255⟩) :: (sFillK 255).indexes, 257⟩

/-- The state after removing id 254 from the full queue with two overflow
items pending: the track-50 item (the lower-priority overflow item) is
promoted to the back of the vec while the track-80 item stays in overflow. -/
def sPromoted : PriorityState :=
  ⟨(List.range 254).map (fun i => ⟨i, 100, 255 - i⟩) ++ [⟨255, 50, 0⟩],
   [⟨256, 80, 0⟩],
   (256, ⟨.inOverflow, 255⟩) :: (255, ⟨.inVec 254, 254⟩) ::
     (List.range 254).reverse.map (fun i => (i, ⟨.inVec i, i⟩)), 257⟩

/-- The state after the second removal (id 253): the track-80 item is
promoted to the back of the vec, behind the track-50 item, so the vec is no
longer sorted by priority. -/
def sC2Final : PriorityState :=
  ⟨(List.range 253).map (fun i => ⟨i, 100, 255 - i⟩) ++ [⟨255, 50, 0⟩, ⟨256, 80, 0⟩],
   [],
   (256, ⟨.inVec 254, 254⟩) :: (255, ⟨.inVec 253, 253⟩) ::
     (List.range 253).reverse.map (fun i => (i, ⟨.inVec i, i⟩)), 257⟩

set_option maxRecDepth 10000 in
/-- Evaluation of the 256th insert: it goes to overflow at rank 255. -/
theorem ins50Eval : stepOp (sFillK 255, []) (.ins 50 0) = (sIns50, []) := by decide

set_option maxRecDepth 10000 in
/-- Evaluation of the 257th insert: it goes to overflow at rank 255. -/
theorem ins80Eval : stepOp (sIns50, []) (.ins 80 0) = (sOverflow2, []) := by decide

set_option maxRecDepth 10000 in
set_option maxHeartbeats 1000000 in
/-- Evaluation of the removal of id 254 with two overflow items pending. -/
theorem del254Eval : stepOp (sOverflow2, []) (.del 254) = (sPromoted, [(255, 254)]) := by
  decide

set_option maxRecDepth 10000 in
set_option maxHeartbeats 1000000 in
/-- Evaluation of the removal of id 253 after the first promotion. -/
theorem del253Eval : stepOp (sPromoted, []) (.del 253) = (sC2Final, [(256, 254), (255, 253)]) := by
  decide

/-- stepOp only appends to the notification accumulator. -/
theorem stepOp_shift (s : PriorityState) (ns : List (Nat × Nat)) (op : PriorityOp) :
    stepOp (s, ns) op = ((stepOp (s, []) op).1, ns ++ (stepOp (s, []) op).2) := by
  cases op <;> simp [stepOp]

/-- The C3 operation sequence: fill to capacity, two overflow inserts, then
remove one top-set item. -/
def opsC3 : List PriorityOp :=
  fillRange 0 255 ++ [.ins 50 0, .ins 80 0, .del 254]

/-- The C2 operation sequence: as opsC3, followed by a second removal. -/
def opsC2 : List PriorityOp :=
  fillRange 0 255 ++ [.ins 50 0, .ins 80 0, .del 254, .del 253]

/-- Full evaluation of the C3 scenario. -/
theorem runOpsC3_eval : runOps opsC3 = (sPromoted, [(255, 254)]) := by
  show (fillRange 0 255 ++ [PriorityOp.ins 50 0, .ins 80 0, .del 254]).foldl
      stepOp (emptyPriorityState, []) = _
  rw [List.foldl_append, fillEval 255 (by omega), List.foldl_cons, ins50Eval,
    List.foldl_cons, ins80Eval, List.foldl_cons, del254Eval, List.foldl_nil]

/-- Full evaluation of the C2 scenario. -/
theorem runOpsC2_eval :
    runOps opsC2 = (sC2Final, [(255, 254), (256, 254), (255, 253)]) := by
  show (fillRange 0 255 ++ [PriorityOp.ins 50 0, .ins 80 0, .del 254, .del 253]).foldl
      stepOp (emptyPriorityState, []) = _
  rw [List.foldl_append, fillEval 255 (by omega), List.foldl_cons, ins50Eval,
    List.foldl_cons, ins80Eval, List.foldl_cons, del254Eval, List.foldl_cons,
    stepOp_shift, del253Eval, List.foldl_nil]
  rfl

/-- Evaluation of the 256-insert sequence alone. -/
theorem runOpsIns50_eval :
    runOps (fillRange 0 255 ++ [PriorityOp.ins 50 0]) = (sIns50, []) := by
  show (fillRange 0 255 ++ [PriorityOp.ins 50 0]).foldl stepOp (emptyPriorityState, []) = _
  rw [List.foldl_append, fillEval 255 (by omega), List.foldl_cons, ins50Eval,
    List.foldl_nil]

/-! ## C2 and C3: the priority scheduler bugs -/

set_option maxRecDepth 10000 in
/-- C3: evaluation at the failing input.  After 255 fill inserts the 256th
item (id 255, track 50) reports rank 255 from overflow, as the claim says;
but when a top-set item is removed with two overflow items pending, the item
promoted into the top set is the track-50 item even though the track-80 item
(id 256) has strictly higher priority and stays in overflow at rank 255.
BinaryHeap::pop returns the greatest element of the reversed order, which is
the lowest-priority overflow item, contradicting the claim, the comments in
priority.rs (pop highest priority item from overflow heap to backfill) and
the spec. -/
theorem c3_overflow_promotion_eval :
    runOps (fillRange 0 255 ++ [PriorityOp.ins 50 0]) = (sIns50, []) ∧
    reportedRank sIns50 255 = some 255 ∧
    runOps opsC3 = (sPromoted, [(255, 254)]) ∧
    reportedRank sPromoted 255 = some 254 ∧
    reportedRank sPromoted 256 = some 255 ∧
    (⟨255, 50, 0⟩ : PriorityItem) ∈ sPromoted.vec ∧
    (⟨256, 80, 0⟩ : PriorityItem) ∈ sPromoted.overflow ∧
    itemLt ⟨256, 80, 0⟩ ⟨255, 50, 0⟩ = true :=
  ⟨runOpsIns50_eval, by decide, runOpsC3_eval, by decide, by decide, by decide,
   by decide, by decide⟩

set_option maxRecDepth 10000 in
/-- C2: evaluation at the failing input.  After the two removals of the C2
scenario both extra items are in the top-255 set, and the track-80 item
(id 256) reports rank 254; but in the list of top-set items sorted by track
priority descending then group sequence descending its index is 253 (the 253
track-100 items precede it and the track-50 item follows it), so the
reported rank differs from the sorted position, refuting the claimed
invariant.  The root cause is the promotion order of C3. -/
theorem c2_rank_sorted_order_eval :
    runOps opsC2 = (sC2Final, [(255, 254), (256, 254), (255, 253)]) ∧
    (⟨255, 50, 0⟩ : PriorityItem) ∈ sC2Final.vec ∧
    (⟨256, 80, 0⟩ : PriorityItem) ∈ sC2Final.vec ∧
    reportedRank sC2Final 256 = some 254 ∧
    sC2Final.vec.countP (fun e => itemLt e ⟨256, 80, 0⟩) = 253 :=
  ⟨runOpsC2_eval, by decide, by decide, by decide, by decide⟩

/-! ## Frame reception (moq-lite/src/ietf/subscriber.rs) -/

/-- Advance the chunked stream past len consumed bytes of the front chunk,
keeping the remainder buffered when the chunk was not fully consumed, as
Reader::read does with its internal buffer (coding/reader.rs lines 92-104). -/
def restAfter (len : Nat) (c : List Nat) (rest : List (List Nat)) : List (List Nat) :=
  if len < c.length then c.drop len :: rest else rest

/-- Subscriber::run_frame from ietf/subscriber.rs lines 383-403: starting
from the declared frame size, repeatedly read a chunk of at most the
remaining size (Reader::read never returns an empty chunk; an empty chunk in
the stream model is skipped as the reader would), append it to the frame,
and subtract its length; when the stream finishes early the read returns
none and the loop fails with Error::WrongSize.  The result is the bytes
written to the FrameProducer and the unconsumed stream. -/
def runFrame : Nat → List (List Nat) → Except MoqError (List Nat × List (List Nat))
  | 0, s => .ok ([], s)
  | _ + 1, [] => .error .wrongSize
  | remain + 1, [] :: rest => runFrame (remain + 1) rest
  | remain + 1, (b :: c) :: rest =>
    match runFrame (remain + 1 - min (remain + 1) (b :: c).length)
        (restAfter (min (remain + 1) (b :: c).length) (b :: c) rest) with
    | .ok (bytes, s3) => .ok ((b :: c).take (min (remain + 1) (b :: c).length) ++ bytes, s3)
    | .error e => .error e
  termination_by remain s => (remain, s.length)
  decreasing_by
  · exact Prod.Lex.right _ (by simp)
  · refine Prod.Lex.left _ _ ?_
    have h1 : 1 ≤ min (remain + 1) (b :: c).length := le_min (by omega) (by simp)
    omega

/-- The terminal state of a received group. -/
inductive GroupEnd where
  | closed
  | aborted (e : MoqError)
  deriving Repr, DecidableEq

/-- The terminal action recv_group takes on the group producer
(ietf/subscriber.rs lines 310-328): Cancel (and transport) errors abort the
group with Cancel, any other error aborts the group with that error, and
success closes the group. -/
def groupEnd : Except MoqError Unit → GroupEnd
  | .ok _ => .closed
  | .error .cancel => .aborted .cancel
  | .error e => .aborted e

/-- A successful frame read delivers exactly the remaining number of bytes. -/
theorem runFrame_ok_length :
    ∀ (remain : Nat) (s : List (List Nat)) (bytes : List Nat) (s2 : List (List Nat)),
      runFrame remain s = .ok (bytes, s2) → bytes.length = remain := by
  intro remain s
  induction remain, s using runFrame.induct with
  | case1 s =>
    intro bytes s2 h
    simp only [runFrame] at h
    cases h
    rfl
  | case2 n =>
    intro bytes s2 h
    simp only [runFrame] at h
    exact Except.noConfusion h
  | case3 remain rest ih =>
    intro bytes s2 h
    simp only [runFrame] at h
    exact ih _ _ h
  | case4 remain b c rest bytes0 s3 hrec ih =>
    intro bytes s2 h
    simp only [runFrame, hrec] at h
    cases h
    have hlen0 := ih bytes0 s3 hrec
    have hle1 : min (remain + 1) (b :: c).length ≤ (b :: c).length := min_le_right _ _
    have hle2 : min (remain + 1) (b :: c).length ≤ remain + 1 := min_le_left _ _
    simp only [List.length_append, List.length_take, hlen0, min_eq_left hle1]
    omega
  | case5 remain b c rest e hrec =>
    intro bytes s2 h
    simp only [runFrame, hrec] at h
    exact Except.noConfusion h

/-- A stream that finishes before the declared size yields WrongSize. -/
theorem runFrame_short :
    ∀ (remain : Nat) (s : List (List Nat)),
      s.flatten.length < remain → runFrame remain s = .error .wrongSize := by
  intro remain s
  induction remain, s using runFrame.induct with
  | case1 s =>
    intro h
    exact absurd h (by omega)
  | case2 n =>
    intro _
    simp only [runFrame]
  | case3 remain rest ih =>
    intro h
    simp only [runFrame]
    exact ih (by simpa using h)
  | case4 remain b c rest bytes0 s3 hrec ih =>
    intro h
    have hle1 : min (remain + 1) (b :: c).length ≤ (b :: c).length := min_le_right _ _
    have hle2 : min (remain + 1) (b :: c).length ≤ remain + 1 := min_le_left _ _
    simp only [List.flatten_cons, List.length_append] at h
    have hflat : (restAfter (min (remain + 1) (b :: c).length) (b :: c) rest).flatten.length <
        remain + 1 - min (remain + 1) (b :: c).length := by
      unfold restAfter
      split
      · simp only [List.flatten_cons, List.length_append, List.length_drop]
        omega
      · omega
    have hcontra := ih hflat
    rw [hrec] at hcontra
    exact Except.noConfusion hcontra
  | case5 remain b c rest e hrec ih =>
    intro h
    have hle1 : min (remain + 1) (b :: c).length ≤ (b :: c).length := min_le_right _ _
    have hle2 : min (remain + 1) (b :: c).length ≤ remain + 1 := min_le_left _ _
    simp only [List.flatten_cons, List.length_append] at h
    have hflat : (restAfter (min (remain + 1) (b :: c).length) (b :: c) rest).flatten.length <
        remain + 1 - min (remain + 1) (b :: c).length := by
      unfold restAfter
      split
      · simp only [List.flatten_cons, List.length_append, List.length_drop]
        omega
      · omega
    have heq := ih hflat
    rw [hrec] at heq
    injection heq with he
    simp only [runFrame, hrec, he]

/-! ## C5: frames are delivered at exactly the declared size -/

/-- C5: a frame read that succeeds wrote exactly the declared number of
bytes to the frame producer, and when the stream finishes before the
declared size the read fails with the wrong-size error and recv_group aborts
the group with it instead of delivering a short frame. -/
theorem c5_frame_size_exact (size : Nat) (s : List (List Nat)) :
    (∀ bytes s2, runFrame size s = .ok (bytes, s2) → bytes.length = size) ∧
    (s.flatten.length < size →
      runFrame size s = .error .wrongSize ∧
      groupEnd (.error .wrongSize) = .aborted .wrongSize) :=
  ⟨fun bytes s2 h => runFrame_ok_length size s bytes s2 h,
   fun h => ⟨runFrame_short size s h, rfl⟩⟩

/-- Witness for C5: a 2-byte frame over two chunks is delivered whole, and
a 5-byte frame over a 3-byte stream fails with WrongSize and aborts the
group. -/
theorem c5_frame_size_exact_witness :
    ([7, 8] : List Nat).length = 2 ∧
    (runFrame 5 [[7], [8, 9]] = .error .wrongSize ∧
      groupEnd (.error .wrongSize) = .aborted .wrongSize) :=
  ⟨(c5_frame_size_exact 2 [[7], [8, 9]]).1 [7, 8] [[9]] (by simp [runFrame, restAfter]),
   (c5_frame_size_exact 5 [[7], [8, 9]]).2 (by decide)⟩

/-! ## Stale group streams (moq-lite/src/ietf/subscriber.rs) -/

/-- Modelled from the spec: the consumer-visible group state of a track,
as the list of group sequences created so far (model/track.rs is not under
src/). -/
structure TrackModel where
  groups : List Nat
  deriving Repr, DecidableEq

/-- Modelled from the spec: TrackProducer::create_group (model/track.rs is
not under src/).  Spec section 4.1: out-of-order creation; returns nothing
if the sequence is older than the current newest retained, otherwise the
group is created. -/
def createGroup (t : TrackModel) (seq : Nat) : Option TrackModel :=
  match t.groups.max? with
  | some m => if seq < m then none else some ⟨seq :: t.groups⟩
  | none => some ⟨seq :: t.groups⟩

/-- The observable outcome of one incoming unidirectional stream. -/
inductive StreamResult where
  | accepted (seq : Nat)
  | reset (code : Nat)
  deriving Repr, DecidableEq

/-- recv_group reduced to its group-creation step (ietf/subscriber.rs lines
293-308): create_group on the subscribed track, with Error::Old when it
returns none; run_uni_stream (lines 202-216) then aborts that one stream
with the error code and returns cleanly, so the accept loop of run (lines
183-200) keeps serving later streams. -/
def recvGroupHeader (t : TrackModel) (seq : Nat) : TrackModel × StreamResult :=
  match createGroup t seq with
  | some t2 => (t2, .accepted seq)
  | none => (t, .reset MoqError.old.toCode)

/-- The accept loop over a list of incoming group-stream headers. -/
def runUniStreams (t : TrackModel) : List Nat → TrackModel × List StreamResult
  | [] => (t, [])
  | seq :: rest =>
    match recvGroupHeader t seq with
    | (t2, r) =>
      match runUniStreams t2 rest with
      | (t3, rs) => (t3, r :: rs)

/-! ## C6: stale group streams are reset without side effects -/

/-- C6: when an incoming group stream carries a sequence older than the
newest retained group, that one stream is reset with the stale error code 7,
the consumer-visible track state is unchanged, and the remaining streams of
the session are processed exactly as they would have been without the stale
stream. -/
theorem c6_stale_stream_reset (t : TrackModel) (seq m : Nat) (rest : List Nat)
    (hm : t.groups.max? = some m) (hstale : seq < m) :
    recvGroupHeader t seq = (t, .reset 7) ∧
    runUniStreams t (seq :: rest) =
      ((runUniStreams t rest).1, .reset 7 :: (runUniStreams t rest).2) := by
  have hnone : createGroup t seq = none := by
    simp only [createGroup, hm, if_pos hstale]
  have h1 : recvGroupHeader t seq = (t, .reset 7) := by
    simp only [recvGroupHeader, hnone]
    rfl
  refine ⟨h1, ?_⟩
  simp only [runUniStreams, h1]

/-- Witness for C6: with groups 5 and 7 retained, a stream with sequence 3
is reset with code 7 and a following stream with sequence 8 is accepted as
if the stale one had not arrived. -/
theorem c6_stale_stream_reset_witness :
    recvGroupHeader ⟨[5, 7]⟩ 3 = (⟨[5, 7]⟩, .reset 7) ∧
    runUniStreams ⟨[5, 7]⟩ [3, 8] =
      ((runUniStreams ⟨[5, 7]⟩ [8]).1, .reset 7 :: (runUniStreams ⟨[5, 7]⟩ [8]).2) :=
  c6_stale_stream_reset ⟨[5, 7]⟩ 3 7 [8] (by decide) (by decide)

/-! ## Timescale conversion (moq-lite/src/model/time.rs) -/

/-- The time overflow error (model/time.rs lines 13-15). -/
structure TimeOverflow where
  deriving Repr, DecidableEq

/-- Timescale::convert from model/time.rs lines 176-189, over Nat with the
u128 arithmetic explicit: value * NEW_SCALE via checked u128 multiplication
(an error at 2^128), checked division by SCALE (an error only for scale
zero), then VarInt::from_u128, which yields a value exactly when it is below
2^62 (the varint range, modelled from the spec since the VarInt type is not
under src/). -/
def timescaleConvert (SCALE NEW : Nat) (value : Nat) : Except TimeOverflow Nat :=
  if value * NEW < 340282366920938463463374607431768211456 then
    if SCALE = 0 then .error ⟨⟩
    else if value * NEW / SCALE < 4611686018427387904 then .ok (value * NEW / SCALE)
    else .error ⟨⟩
  else .error ⟨⟩

/-! ## C10: finer-then-back timescale conversion round-trips -/

/-- C10: for a timestamp t at scale S and a target scale that is a positive
multiple k * S of S (both scales u64), the conversion succeeds exactly when
the scaled value t * k is below 2^62, in which case converting back returns
exactly t; when the scaled value does not fit, the conversion returns a
TimeOverflow error rather than wrapping. -/
theorem c10_timescale_roundtrip (S k t : Nat) (hS : 0 < S) (hk : 0 < k)
    (hT : k * S < 18446744073709551616) (ht : t < 4611686018427387904) :
    (t * k < 4611686018427387904 →
      timescaleConvert S (k * S) t = .ok (t * k) ∧
      timescaleConvert (k * S) S (t * k) = .ok t) ∧
    (4611686018427387904 ≤ t * k →
      timescaleConvert S (k * S) t = .error ⟨⟩) := by
  have hS0 : ¬(S = 0) := by omega
  have hkS0 : ¬(k * S = 0) := by positivity
  have h128a : t * (k * S) < 340282366920938463463374607431768211456 := by
    calc t * (k * S) < 4611686018427387904 * 18446744073709551616 :=
          Nat.mul_lt_mul_of_lt_of_lt ht hT
      _ < 340282366920938463463374607431768211456 := by norm_num
  have hdiv1 : t * (k * S) / S = t * k := by
    rw [← mul_assoc]
    exact Nat.mul_div_cancel _ hS
  constructor
  · intro hfit
    have hSle : S < 18446744073709551616 := by
      calc S ≤ k * S := Nat.le_mul_of_pos_left S hk
        _ < 18446744073709551616 := hT
    have h128b : t * k * S < 340282366920938463463374607431768211456 := by
      calc t * k * S < 4611686018427387904 * 18446744073709551616 :=
            Nat.mul_lt_mul_of_lt_of_lt hfit hSle
        _ < 340282366920938463463374607431768211456 := by norm_num
    have hdiv2 : t * k * S / (k * S) = t := by
      rw [mul_assoc]
      exact Nat.mul_div_cancel _ (by positivity)
    constructor
    · simp only [timescaleConvert, if_pos h128a, if_neg hS0, hdiv1, if_pos hfit]
    · simp only [timescaleConvert, if_pos h128b, if_neg hkS0, hdiv2, if_pos ht]
  · intro hbig
    simp only [timescaleConvert, if_pos h128a, if_neg hS0, hdiv1,
      if_neg (by omega : ¬(t * k < 4611686018427387904))]

/-- Witness for C10 at S = 1000 (milliseconds), k = 1000 (to microseconds)
and t = 5000, plus the overflow case at t = 2^61 and k = 4. -/
theorem c10_timescale_roundtrip_witness :
    ((5000 * 1000 < 4611686018427387904 →
      timescaleConvert 1000 (1000 * 1000) 5000 = .ok (5000 * 1000) ∧
      timescaleConvert (1000 * 1000) 1000 (5000 * 1000) = .ok 5000) ∧
     (4611686018427387904 ≤ 5000 * 1000 →
      timescaleConvert 1000 (1000 * 1000) 5000 = .error ⟨⟩)) ∧
    (4611686018427387904 ≤ 2305843009213693952 * 4 →
      timescaleConvert 1 (4 * 1) 2305843009213693952 = .error ⟨⟩) :=
  ⟨c10_timescale_roundtrip 1000 1000 5000 (by norm_num) (by norm_num)
      (by norm_num) (by norm_num),
   (c10_timescale_roundtrip 1 4 2305843009213693952 (by norm_num) (by norm_num)
      (by norm_num) (by norm_num)).2⟩

end MoqProof
